import Mathlib

/-!
Verification of the shardable-uuid identifier generator.

The definitions below are a shallow embedding of `src/ShardableUUID.ts`.
JavaScript `BigInt` arithmetic on the non-negative values handled by the
pipeline is embedded as `Nat` arithmetic (`<<<`, `>>>`, `&&&`, `|||` are the
same bitwise operators).  The asynchronous Redis interaction is embedded by
explicit state passing (the stored counter value for the one key under
consideration is an `Option Nat`, absent = `none`) and by an `Except` value
standing for the settled promise of a store call.  The Node `Buffer`
hex/base64 facilities used by the codec are external standard-library
collaborators of the repository; they are modelled from their documented
standard behaviour (big-endian bytes, RFC 4648 alphabet, Node's lenient
base64 decoding that ignores out-of-alphabet characters, stops at `=`, and
drops trailing bits that do not fill a byte; Node's hex decoding that stops
at the first incomplete or invalid digit pair).
-/

namespace ShardableUUID

/-- `DATA_BIT` constant (line 7 of the source). -/
def DATA_BIT : Nat := 62

/-- `DATA_HEAD_BIT` constant (line 8). -/
def DATA_HEAD_BIT : Nat := 11

/-- `SHARD_BIT` constant (line 9). -/
def SHARD_BIT : Nat := 10

/-- `SHARD_SLOT` constant (line 10). -/
def SHARD_SLOT : Nat := 1024

/-- `MAX_SEQ` constant (line 11). -/
def MAX_SEQ : Nat := 127

/-- `MAX_TYPE` constant (line 12). -/
def MAX_TYPE : Nat := 1023

/-- The data-bit assembly of `generate` (lines 45-49): marker bit 1, then
`msec` (10 bits), `sec` (34 bits), `type` (10 bits), `seq` (7 bits) pushed in
by left-shift/or. -/
def pack (msec sec type seq : Nat) : Nat :=
  let dataBits : Nat := 1
  let dataBits := (dataBits <<< 10) ||| msec
  let dataBits := (dataBits <<< 34) ||| sec
  let dataBits := (dataBits <<< 10) ||| type
  (dataBits <<< 7) ||| seq

/-- `mixbit` (lines 102-113): emit the top 11 bits of `dataBits`, then ten
times a 5-bit data chunk followed by one shard bit (most significant shard
bit first), then the last data bit. -/
def mixbit (dataBits : Nat) (shard : Nat) : Nat :=
  let buffer := dataBits >>> (DATA_BIT - DATA_HEAD_BIT)
  let buffer := (List.range 10).foldl (fun buf j =>
    let i := j + 1
    let buf := (buf <<< 5) ||| ((dataBits >>> (DATA_BIT - DATA_HEAD_BIT - i * 5)) &&& 31)
    (buf <<< 1) ||| ((shard >>> (SHARD_BIT - i)) &&& 1)) buffer
  (buffer <<< 1) ||| (dataBits &&& 1)

/-- `unmixbit` (lines 115-130): take the 11 header bits, then ten times a
6-bit chunk split into 5 data bits and 1 shard bit, then the final data
bit. -/
def unmixbit (uuid : Nat) : Nat × Nat :=
  let mixedDataBit := DATA_BIT + SHARD_BIT
  let dataBuffer := uuid >>> (mixedDataBit - DATA_HEAD_BIT)
  let r := (List.range 10).foldl (fun (r : Nat × Nat) j =>
    let i := j + 1
    let dataChunkAndShardBit := (uuid >>> (mixedDataBit - DATA_HEAD_BIT - i * 6)) &&& 63
    ((r.1 <<< 5) ||| (dataChunkAndShardBit >>> 1),
     (r.2 <<< 1) ||| (dataChunkAndShardBit &&& 1))) (dataBuffer, 0)
  ((r.1 <<< 1) ||| (uuid &&& 1), r.2)

/-- The field extraction of `parse` (lines 75-84): mask-and-shift with masks
127, 1023, 17179869183 (= 2^34 - 1), 1023.  Returned in extraction order
`(seq, type, sec, msec)`. -/
def unpack (buffer : Nat) : Nat × Nat × Nat × Nat :=
  let seq := buffer &&& 127
  let buffer1 := buffer >>> 7
  let type := buffer1 &&& 1023
  let buffer2 := buffer1 >>> 10
  let sec := buffer2 &&& 17179869183
  let buffer3 := buffer2 >>> 34
  let msec := buffer3 &&& 1023
  (seq, type, sec, msec)

/-! ### Codec: hex and base64 layers (standard-library collaborators) -/

/-- Lowercase hexadecimal digit characters. -/
def hexDigits : List Char :=
  "0123456789abcdef".toList

/-- The character of one hex digit. -/
def hexChar (d : Nat) : Char := hexDigits.getD d '0'

/-- The value of one hex digit character, `none` if not a hex digit. -/
def hexVal (c : Char) : Option Nat := (List.range 16).find? (fun d => hexChar d == c)

/-- Big-endian base-16 digit list of `n`, empty for `n = 0`; the first
argument is recursion fuel (any fuel `≥ n` gives the digit list). -/
def toHexAux : Nat → Nat → List Nat
  | 0, _ => []
  | fuel + 1, n => if n = 0 then [] else toHexAux fuel (n / 16) ++ [n % 16]

/-- `BigInt.toString(16)`: minimal-length lowercase hex rendering, no leading
zeros, `"0"` for zero. -/
def toHex (n : Nat) : List Char :=
  if n = 0 then ['0'] else (toHexAux n n).map hexChar

/-- `Buffer.from(s, 'hex')`: consume hex-digit pairs into bytes; stop at the
first incomplete or invalid pair (an odd trailing digit is silently
dropped). -/
def bytesFromHex : List Char → List Nat
  | c1 :: c2 :: rest =>
    match hexVal c1, hexVal c2 with
    | some a, some b => (16 * a + b) :: bytesFromHex rest
    | _, _ => []
  | _ => []

/-- Pair consecutive base-16 digits into bytes, dropping an odd trailing
digit (the arithmetic content of hex-pair decoding). -/
def pairUp : List Nat → List Nat
  | d1 :: d2 :: rest => (16 * d1 + d2) :: pairUp rest
  | _ => []

/-- `buffer.toString('hex')`: two lowercase hex digits per byte. -/
def bytesToHex : List Nat → List Char
  | [] => []
  | b :: rest => hexChar (b / 16) :: hexChar (b % 16) :: bytesToHex rest

/-- The RFC 4648 base64 alphabet. -/
def b64Alphabet : List Char :=
  "ABCDEFGHIJKLMNOPQRSTUVWXYZabcdefghijklmnopqrstuvwxyz0123456789+/".toList

/-- The character of one 6-bit group. -/
def b64Char (v : Nat) : Char := b64Alphabet.getD v 'A'

/-- The 6-bit value of a base64 alphabet character, `none` otherwise (also
for the padding character `=`). -/
def b64Val (c : Char) : Option Nat := (List.range 64).find? (fun v => b64Char v == c)

/-- `buffer.toString('base64')`: standard base64 of a byte sequence with
`=` padding. -/
def b64Encode : List Nat → List Char
  | [] => []
  | [a] => [b64Char (a / 4), b64Char (a % 4 * 16), '=', '=']
  | [a, b] => [b64Char (a / 4), b64Char (a % 4 * 16 + b / 16), b64Char (b % 16 * 4), '=']
  | a :: b :: c :: rest =>
    b64Char (a / 4) :: b64Char (a % 4 * 16 + b / 16) ::
    b64Char (b % 16 * 4 + c / 64) :: b64Char (c % 64) :: b64Encode rest

/-- Streaming core of Node's lenient base64 decoding: `acc` holds `nbits`
pending bits; a `=` stops decoding, out-of-alphabet characters are ignored,
each alphabet character contributes 6 bits, and a full byte is emitted as
soon as 8 bits are pending.  Trailing bits that do not fill a byte are
dropped. -/
def b64DecodeCore : List Char → Nat → Nat → List Nat
  | [], _, _ => []
  | c :: rest, acc, nbits =>
    if c = '=' then []
    else
      match b64Val c with
      | none => b64DecodeCore rest acc nbits
      | some v =>
        if nbits + 6 ≥ 8 then
          (acc * 64 + v) / 2 ^ (nbits + 6 - 8) ::
            b64DecodeCore rest ((acc * 64 + v) % 2 ^ (nbits + 6 - 8)) (nbits + 6 - 8)
        else
          b64DecodeCore rest (acc * 64 + v) (nbits + 6)

/-- `Buffer.from(s, 'base64')`. -/
def b64Decode (s : List Char) : List Nat := b64DecodeCore s 0 0

/-- The three encode-side substitutions of `encodeBase64UrlSafe`
(lines 172-174): `+` to `-`, `/` to `_`, `=` to `.`. -/
def substEnc (c : Char) : Char :=
  if c = '+' then '-' else if c = '/' then '_' else if c = '=' then '.' else c

/-- The three decode-side substitutions of `decodeBase64UrlSafe`
(lines 182-184): `-` to `+`, `_` to `/`, `.` to `=`. -/
def substDec (c : Char) : Char :=
  if c = '-' then '+' else if c = '_' then '/' else if c = '.' then '=' else c

/-- `encodeBase64UrlSafe` (lines 169-175): hex rendering of the integer,
hex-to-bytes, base64, then the URL-safe substitutions. -/
def encodeBase64UrlSafe (uuid : Nat) : List Char :=
  (b64Encode (bytesFromHex (toHex uuid))).map substEnc

/-- `decodeBase64UrlSafe` (lines 177-188): reverse substitutions, base64
decode, bytes to hex, then `BigInt('0x' + hex)`.  `BigInt` raises a
`SyntaxError` exactly when the hex string is empty (the byte sequence is
empty), embedded as `none`; a non-empty all-hex string parses as the
big-endian value. -/
def decodeBase64UrlSafe (s : List Char) : Option Nat :=
  let hex := bytesToHex (b64Decode (s.map substDec))
  if hex.isEmpty then none
  else some (hex.foldl (fun a c => 16 * a + (hexVal c).getD 0) 0)

/-! ### Facade -/

/-- The record returned by `parse` (lines 86-92). -/
structure Parsed where
  type : Nat
  shard : Nat
  sec : Nat
  msec : Nat
  seq : Nat
deriving DecidableEq, Repr

/-- The `bigint` branch of `parse` (lines 73-92): unmix, then mask-and-shift
extraction. -/
def parseBig (source : Nat) : Parsed :=
  let r := unmixbit source
  let u := unpack r.1
  { type := u.2.1, shard := r.2, sec := u.2.2.1, msec := u.2.2.2, seq := u.1 }

/-- The string branch of `parse` (lines 65-93): decode the token, then
extract; a decode failure propagates (the `none` case). -/
def parse (uuid : List Char) : Option Parsed :=
  (decodeBase64UrlSafe uuid).map parseBig

/-- The Lua script run by `seq` (lines 145-155) as a function of the stored
value for the key: absent gives 0, a stored value `≥ MAX_SEQ` wraps to 0,
otherwise the stored value plus one; the result is written back. -/
def seqScript (stored : Option Nat) : Nat :=
  match stored with
  | none => 0
  | some v => if v ≥ MAX_SEQ then 0 else v + 1

/-- The stored value after `n` executions of the sequence script starting
from the deleted state left by `resetSeq`. -/
def seqStateAfter : Nat → Option Nat
  | 0 => none
  | n + 1 => some (seqScript (seqStateAfter n))

/-- The value issued by the `(n+1)`-th `next` call after a reset. -/
def seqIssued (n : Nat) : Nat := seqScript (seqStateAfter n)

/-- The state effect of `resetSeq` (lines 160-163): `redis.del` removes the
key. -/
def resetSeqState (_store : Option Nat) : Option Nat := none

/-- The record returned by `generate` (lines 53-59). -/
structure GenResult where
  uuid : List Char
  shard : Nat
  sec : Nat
  msec : Nat
  seq : Nat
deriving DecidableEq, Repr

/-- `generate` (lines 26-60) with the store passed explicitly: the stored
counter value for the addressed key goes in, the updated stored value comes
out.  `hint` is the value returned by the sharding-hint call (the default
hint is a non-negative integer below `SHARD_SLOT`), `sec`/`msec` the clock
reading.  A type above `MAX_TYPE` raises `RangeError` (the `none` result)
before the store is touched, leaving it unchanged. -/
def generate (type hint sec msec : Nat) (store : Option Nat) :
    Option GenResult × Option Nat :=
  if type > MAX_TYPE then (none, store)
  else
    let shard := hint % SHARD_SLOT
    let seq := seqScript store
    let dataBits := pack msec sec type seq
    (some { uuid := encodeBase64UrlSafe (mixbit dataBits shard),
            shard := shard, sec := sec, msec := msec, seq := seq },
     some seq)

/-- Line 29, `this.shardingHint() % ShardableUUID.SHARD_SLOT`, over all
JavaScript integers: the JavaScript `%` operator is the truncated-division
remainder (`Int.tmod`), whose result takes the sign of the dividend. -/
def shardOf (hint : Int) : Int := Int.tmod hint 1024

/-- Failure channel of a `generate` call: the synchronous `RangeError`
(line 27) or a rejected store promise (line 30 awaits `seq`, which rejects
when the Redis call fails). -/
inductive GenFailure (ε : Type) where
  | rangeViolation : GenFailure ε
  | storeFailure : ε → GenFailure ε
deriving DecidableEq

/-- `generate` with the settled outcome of the store round trip made
explicit: `store` is either the failure the `seq` promise rejects with, or
the stored counter value it reads.  `await` on a rejected promise rethrows,
so a store failure becomes the result of `generate`. -/
def generateAwait {ε : Type} (type hint sec msec : Nat)
    (store : Except ε (Option Nat)) : Except (GenFailure ε) GenResult :=
  if type > MAX_TYPE then .error .rangeViolation
  else
    match store with
    | .error e => .error (.storeFailure e)
    | .ok st =>
      let shard := hint % SHARD_SLOT
      let seq := seqScript st
      .ok { uuid := encodeBase64UrlSafe (mixbit (pack msec sec type seq) shard),
            shard := shard, sec := sec, msec := msec, seq := seq }

/-- `resetSeq` (lines 160-163) as seen through its returned promise:
`redis.del(...)` is called without `await`, so its settled outcome
`delResult` never influences the value `resetSeq` resolves with — the
function returns `undefined` successfully even when the delete rejects. -/
def resetSeq {ε : Type} (_delResult : Except ε Unit) : Except ε Unit :=
  Except.ok ()

/-- Modelled from the spec: a token is "valid base64" when its length is a
multiple of four and it consists of alphabet characters followed by at most
two `=` padding characters. -/
def specValidBase64 (s : List Char) : Bool :=
  let r := s.reverse
  let pads := r.takeWhile (fun c => c == '=')
  decide (s.length % 4 = 0) && decide (pads.length ≤ 2) &&
    (r.drop pads.length).all (fun c => (b64Val c).isSome)

end ShardableUUID

open ShardableUUID

/-! ### Arithmetic helper lemmas -/

theorem or_shl (x y k : Nat) (h : y < 2 ^ k) : (x <<< k) ||| y = x * 2 ^ k + y := by
  rw [Nat.shiftLeft_eq]
  rw [Nat.mul_comm x (2 ^ k)]
  exact (Nat.mul_add_lt_is_or h x).symm

theorem and31 (x : Nat) : x &&& 31 = x % 32 := by
  have h := Nat.and_pow_two_sub_one_eq_mod x 5
  norm_num at h
  exact h

theorem and63 (x : Nat) : x &&& 63 = x % 64 := by
  have h := Nat.and_pow_two_sub_one_eq_mod x 6
  norm_num at h
  exact h

theorem and127 (x : Nat) : x &&& 127 = x % 128 := by
  have h := Nat.and_pow_two_sub_one_eq_mod x 7
  norm_num at h
  exact h

theorem and1023 (x : Nat) : x &&& 1023 = x % 1024 := by
  have h := Nat.and_pow_two_sub_one_eq_mod x 10
  norm_num at h
  exact h

theorem and2p34 (x : Nat) : x &&& 17179869183 = x % 17179869184 := by
  have h := Nat.and_pow_two_sub_one_eq_mod x 34
  norm_num at h
  exact h

theorem orA (x y : Nat) : (x <<< 5) ||| y % 32 = x * 32 + y % 32 := by
  have h := or_shl x (y % 32) 5 (by omega)
  norm_num at h
  exact h

theorem orB (x y : Nat) : (x <<< 1) ||| y % 2 = x * 2 + y % 2 := by
  have h := or_shl x (y % 2) 1 (by omega)
  norm_num at h
  exact h

theorem orC (x y : Nat) : (x <<< 5) ||| y % 64 / 2 ^ 1 = x * 32 + y % 64 / 2 ^ 1 := by
  have h := or_shl x (y % 64 / 2 ^ 1) 5 (by omega)
  norm_num at h
  exact h

/-- Closed arithmetic form of `pack` on in-range fields. -/
theorem pack_eq (msec sec type seq : Nat) (hm : msec < 1024) (hs : sec < 2 ^ 34)
    (ht : type < 1024) (hq : seq < 128) :
    pack msec sec type seq =
      2 ^ 61 + msec * 2 ^ 51 + sec * 2 ^ 17 + type * 2 ^ 7 + seq := by
  show (((((1 : Nat) <<< 10 ||| msec) <<< 34 ||| sec) <<< 10 ||| type) <<< 7 ||| seq) = _
  rw [or_shl 1 msec 10 hm, or_shl _ sec 34 hs, or_shl _ type 10 ht, or_shl _ seq 7 hq]
  ring

/-- `pack` on in-range fields is a 62-bit value with its top (marker) bit
set. -/
theorem pack_range (msec sec type seq : Nat) (hm : msec < 1024) (hs : sec < 2 ^ 34)
    (ht : type < 1024) (hq : seq < 128) :
    2 ^ 61 ≤ pack msec sec type seq ∧ pack msec sec type seq < 2 ^ 62 := by
  rw [pack_eq msec sec type seq hm hs ht hq]
  omega

/-- Extraction of `unpack` applied to `pack` on in-range fields. -/
theorem unpack_pack (msec sec type seq : Nat) (hm : msec ≤ 1023) (hs : sec < 2 ^ 34)
    (ht : type ≤ 1023) (hq : seq ≤ 127) :
    unpack (pack msec sec type seq) = (seq, type, sec, msec) := by
  rw [show unpack (pack msec sec type seq) =
      (pack msec sec type seq &&& 127,
       pack msec sec type seq >>> 7 &&& 1023,
       pack msec sec type seq >>> 7 >>> 10 &&& 17179869183,
       pack msec sec type seq >>> 7 >>> 10 >>> 34 &&& 1023) from rfl]
  rw [pack_eq msec sec type seq (by omega) hs (by omega) (by omega)]
  simp only [and127, and1023, and2p34, Nat.shiftRight_eq_div_pow, Prod.mk.injEq]
  norm_num
  omega

/-- C3: packing marker/msec/sec/type/seq by left-shift/OR and extracting by
mask-and-shift with masks 127, 1023, 2^34-1, 1023 reproduces msec, sec,
type and seq. -/
theorem c3_pack_unpack_roundtrip (msec sec type seq : Nat) (hm : msec ≤ 1023)
    (hs : sec ≤ 2 ^ 34 - 1) (ht : type ≤ 1023) (hq : seq ≤ 127) :
    unpack (pack msec sec type seq) = (seq, type, sec, msec) :=
  unpack_pack msec sec type seq hm (by omega) ht hq

/-- Witness for C3 at a concrete in-range input. -/
theorem c3_pack_unpack_roundtrip_witness :
    unpack (pack 999 1700000000 1 5) = (5, 1, 1700000000, 999) :=
  c3_pack_unpack_roundtrip 999 1700000000 1 5 (by norm_num) (by norm_num)
    (by norm_num) (by norm_num)

/-- The value of the `(n+1)`-th `next` call on a key after a reset. -/
theorem seqIssued_eq (n : Nat) : seqIssued n = n % 128 := by
  induction n with
  | zero => rfl
  | succ n ih =>
    show seqScript (some (seqIssued n)) = (n + 1) % 128
    rw [ih]
    simp only [seqScript, MAX_SEQ]
    split <;> omega

/-- C4: the sequence step maps an absent value to 0, a value ≥ 127 to 0 and
any other value v to v+1, writing the result back; starting from the deleted
state left by `resetSeq`, consecutive calls yield 0, 1, ..., 127, 0, 1, ...
and every issued value stays in [0,127]. -/
theorem c4_sequence_counter :
    (seqScript none = 0) ∧
    (∀ v, 127 ≤ v → seqScript (some v) = 0) ∧
    (∀ v, v < 127 → seqScript (some v) = v + 1) ∧
    (∀ store, resetSeqState store = none) ∧
    (∀ n, seqStateAfter (n + 1) = some (seqIssued n)) ∧
    (∀ n, seqIssued n = n % 128) ∧
    (∀ n, seqIssued n ≤ 127) := by
  refine ⟨rfl, fun v hv => ?_, fun v hv => ?_, fun store => rfl, fun n => rfl,
    seqIssued_eq, fun n => ?_⟩
  · simp only [seqScript, MAX_SEQ]
    split <;> omega
  · simp only [seqScript, MAX_SEQ]
    split <;> omega
  · rw [seqIssued_eq]
    omega

/-- Witness for C4: concrete wraparound values. -/
theorem c4_sequence_counter_witness :
    seqScript (some 127) = 0 ∧ seqScript (some 200) = 0 ∧ seqScript (some 5) = 6 := by
  refine ⟨c4_sequence_counter.2.1 127 ?_, c4_sequence_counter.2.1 200 ?_,
    c4_sequence_counter.2.2.1 5 ?_⟩ <;> norm_num

/-- C6: `generate` fails with the range violation exactly when the type
exceeds 1023, and the failing check runs before any store I/O, leaving the
store untouched; `generate 1023` does not fail. -/
theorem c6_range_validation :
    (∀ hint sec msec store, generate 1024 hint sec msec store = (none, store)) ∧
    (∀ hint sec msec store, ((generate 1023 hint sec msec store).1).isSome = true) ∧
    (∀ type hint sec msec store,
      ((generate type hint sec msec store).1 = none ↔ 1023 < type)) ∧
    (∀ type hint sec msec store, 1023 < type →
      (generate type hint sec msec store).2 = store) := by
  refine ⟨fun hint sec msec store => rfl, fun hint sec msec store => rfl,
    fun type hint sec msec store => ?_, fun type hint sec msec store h => ?_⟩
  · by_cases h : 1023 < type
    · simp [generate, MAX_TYPE, h]
    · simp [generate, MAX_TYPE, h]
  · simp [generate, MAX_TYPE, h]

/-- Witness for C6 at concrete inputs. -/
theorem c6_range_validation_witness :
    generate 1024 0 0 0 (some 3) = (none, some 3) ∧
    (generate 2000 0 0 0 (some 3)).2 = some 3 :=
  ⟨c6_range_validation.1 0 0 0 (some 3),
   c6_range_validation.2.2.2 2000 0 0 0 (some 3) (by norm_num)⟩

/-- C8 fails as stated: JavaScript `%` is the truncated-division remainder,
so a negative hint yields a negative shard, not a value in [0,1023]; at
hint = -1 the computed shard is -1, which differs from the mathematical
mod (1023) and is not a 10-bit value. -/
theorem c8_counterexample :
    shardOf (-1) = -1 ∧ shardOf (-1) ≠ Int.emod (-1) 1024 ∧ ¬(0 ≤ shardOf (-1)) := by
  refine ⟨rfl, ?_, ?_⟩ <;> decide

/-- C8 amended: for a hint function returning a non-negative value, the
shard equals hint mod 1024 and is in [0,1023]; in particular every shard
`generate` computes from a non-negative hint is `hint % 1024 < 1024`. -/
theorem c8_shard_mod :
    (∀ hint : Int, 0 ≤ hint →
      shardOf hint = hint % 1024 ∧ 0 ≤ shardOf hint ∧ shardOf hint < 1024) ∧
    (∀ type hint sec msec store g, (generate type hint sec msec store).1 = some g →
      g.shard = hint % 1024 ∧ g.shard < 1024) := by
  constructor
  · intro hint hh
    have he : shardOf hint = hint % 1024 := Int.tmod_eq_emod hh (by norm_num)
    refine ⟨he, ?_, ?_⟩
    · rw [he]
      exact Int.emod_nonneg hint (by norm_num)
    · rw [he]
      exact Int.emod_lt_of_pos hint (by norm_num)
  · intro type hint sec msec store g hg
    by_cases h : 1023 < type
    · simp [generate, MAX_TYPE, h] at hg
    · simp [generate, MAX_TYPE, h, SHARD_SLOT] at hg
      subst hg
      refine ⟨rfl, ?_⟩
      show hint % 1024 < 1024
      omega

/-- Witness for C8 amended at concrete inputs. -/
theorem c8_shard_mod_witness :
    (shardOf 5 = 5 % 1024 ∧ 0 ≤ shardOf 5 ∧ shardOf 5 < 1024) ∧
    ({ uuid := encodeBase64UrlSafe (mixbit (pack 3 2 1 0) 7), shard := 7,
       sec := 2, msec := 3, seq := 0 : GenResult }.shard = 7 % 1024 ∧
     ({ uuid := encodeBase64UrlSafe (mixbit (pack 3 2 1 0) 7), shard := 7,
        sec := 2, msec := 3, seq := 0 : GenResult }.shard < 1024)) :=
  ⟨c8_shard_mod.1 5 (by norm_num),
   c8_shard_mod.2 1 7 2 3 none _ (by rfl)⟩

set_option maxHeartbeats 2000000 in
/-- Closed arithmetic form of `mixbit`: header, then interleaved 5-bit data
chunks and shard bits, then the trailing data bit, at their output
positions. -/
theorem mixbit_eq (p s : Nat) :
    mixbit p s =
      p / 2 ^ 51 * 2 ^ 61 + p / 2 ^ 46 % 32 * 2 ^ 56 + s / 2 ^ 9 % 2 * 2 ^ 55 +
      p / 2 ^ 41 % 32 * 2 ^ 50 + s / 2 ^ 8 % 2 * 2 ^ 49 +
      p / 2 ^ 36 % 32 * 2 ^ 44 + s / 2 ^ 7 % 2 * 2 ^ 43 +
      p / 2 ^ 31 % 32 * 2 ^ 38 + s / 2 ^ 6 % 2 * 2 ^ 37 +
      p / 2 ^ 26 % 32 * 2 ^ 32 + s / 2 ^ 5 % 2 * 2 ^ 31 +
      p / 2 ^ 21 % 32 * 2 ^ 26 + s / 2 ^ 4 % 2 * 2 ^ 25 +
      p / 2 ^ 16 % 32 * 2 ^ 20 + s / 2 ^ 3 % 2 * 2 ^ 19 +
      p / 2 ^ 11 % 32 * 2 ^ 14 + s / 2 ^ 2 % 2 * 2 ^ 13 +
      p / 2 ^ 6 % 32 * 2 ^ 8 + s / 2 ^ 1 % 2 * 2 ^ 7 +
      p / 2 ^ 1 % 32 * 2 ^ 2 + s % 2 * 2 + p % 2 := by
  have hrange : List.range 10 = [0, 1, 2, 3, 4, 5, 6, 7, 8, 9] := rfl
  simp only [mixbit, DATA_BIT, DATA_HEAD_BIT, SHARD_BIT, hrange, List.foldl_cons,
    List.foldl_nil, Nat.reduceAdd, Nat.reduceMul, Nat.reduceSub,
    Nat.shiftRight_eq_div_pow, and31, Nat.and_one_is_mod, orA, orB]
  omega

set_option maxHeartbeats 2000000 in
/-- Closed arithmetic form of `unmixbit`: header, ten 6-bit chunks split
into 5 data bits and 1 shard bit, trailing data bit. -/
theorem unmixbit_eq (M : Nat) :
    unmixbit M =
      (M / 2 ^ 61 * 2 ^ 51 + M / 2 ^ 55 % 64 / 2 ^ 1 * 2 ^ 46 +
         M / 2 ^ 49 % 64 / 2 ^ 1 * 2 ^ 41 + M / 2 ^ 43 % 64 / 2 ^ 1 * 2 ^ 36 +
         M / 2 ^ 37 % 64 / 2 ^ 1 * 2 ^ 31 + M / 2 ^ 31 % 64 / 2 ^ 1 * 2 ^ 26 +
         M / 2 ^ 25 % 64 / 2 ^ 1 * 2 ^ 21 + M / 2 ^ 19 % 64 / 2 ^ 1 * 2 ^ 16 +
         M / 2 ^ 13 % 64 / 2 ^ 1 * 2 ^ 11 + M / 2 ^ 7 % 64 / 2 ^ 1 * 2 ^ 6 +
         M / 2 ^ 1 % 64 / 2 ^ 1 * 2 ^ 1 + M % 2,
       M / 2 ^ 55 % 64 % 2 * 2 ^ 9 + M / 2 ^ 49 % 64 % 2 * 2 ^ 8 +
         M / 2 ^ 43 % 64 % 2 * 2 ^ 7 + M / 2 ^ 37 % 64 % 2 * 2 ^ 6 +
         M / 2 ^ 31 % 64 % 2 * 2 ^ 5 + M / 2 ^ 25 % 64 % 2 * 2 ^ 4 +
         M / 2 ^ 19 % 64 % 2 * 2 ^ 3 + M / 2 ^ 13 % 64 % 2 * 2 ^ 2 +
         M / 2 ^ 7 % 64 % 2 * 2 + M / 2 ^ 1 % 64 % 2) := by
  have hrange : List.range 10 = [0, 1, 2, 3, 4, 5, 6, 7, 8, 9] := rfl
  simp only [unmixbit, DATA_BIT, DATA_HEAD_BIT, SHARD_BIT, hrange, List.foldl_cons,
    List.foldl_nil, Nat.reduceAdd, Nat.reduceMul, Nat.reduceSub,
    Nat.shiftRight_eq_div_pow, and63, Nat.and_one_is_mod, orB, orC, Prod.mk.injEq]
  constructor
  · omega
  · omega

set_option maxHeartbeats 2000000 in
/-- `unmixbit` applied to an integer presented as header, interleaved
chunks/shard bits and trailing bit recovers the data and shard parts. -/
theorem unmix_of_flat (M b0 c1 c2 c3 c4 c5 c6 c7 c8 c9 c10 l t1 t2 t3 t4 t5 t6 t7 t8 t9 t10 : Nat)
    (hc1 : c1 < 32) (hc2 : c2 < 32) (hc3 : c3 < 32) (hc4 : c4 < 32) (hc5 : c5 < 32)
    (hc6 : c6 < 32) (hc7 : c7 < 32) (hc8 : c8 < 32) (hc9 : c9 < 32) (hc10 : c10 < 32)
    (hl : l < 2) (ht1 : t1 < 2) (ht2 : t2 < 2) (ht3 : t3 < 2) (ht4 : t4 < 2)
    (ht5 : t5 < 2) (ht6 : t6 < 2) (ht7 : t7 < 2) (ht8 : t8 < 2) (ht9 : t9 < 2)
    (ht10 : t10 < 2)
    (hM : M = b0 * 2 ^ 61 + c1 * 2 ^ 56 + t1 * 2 ^ 55 +
      c2 * 2 ^ 50 + t2 * 2 ^ 49 + c3 * 2 ^ 44 + t3 * 2 ^ 43 +
      c4 * 2 ^ 38 + t4 * 2 ^ 37 + c5 * 2 ^ 32 + t5 * 2 ^ 31 +
      c6 * 2 ^ 26 + t6 * 2 ^ 25 + c7 * 2 ^ 20 + t7 * 2 ^ 19 +
      c8 * 2 ^ 14 + t8 * 2 ^ 13 + c9 * 2 ^ 8 + t9 * 2 ^ 7 +
      c10 * 2 ^ 2 + t10 * 2 + l) :
    unmixbit M =
    (b0 * 2 ^ 51 + c1 * 2 ^ 46 + c2 * 2 ^ 41 + c3 * 2 ^ 36 + c4 * 2 ^ 31 +
       c5 * 2 ^ 26 + c6 * 2 ^ 21 + c7 * 2 ^ 16 + c8 * 2 ^ 11 + c9 * 2 ^ 6 +
       c10 * 2 ^ 1 + l,
     t1 * 2 ^ 9 + t2 * 2 ^ 8 + t3 * 2 ^ 7 + t4 * 2 ^ 6 + t5 * 2 ^ 5 +
       t6 * 2 ^ 4 + t7 * 2 ^ 3 + t8 * 2 ^ 2 + t9 * 2 ^ 1 + t10) := by
  have e0 : M / 2 ^ 61 = b0 := by omega
  have f1 : M / 2 ^ 55 % 64 = c1 * 2 + t1 := by omega
  have f2 : M / 2 ^ 49 % 64 = c2 * 2 + t2 := by omega
  have f3 : M / 2 ^ 43 % 64 = c3 * 2 + t3 := by omega
  have f4 : M / 2 ^ 37 % 64 = c4 * 2 + t4 := by omega
  have f5 : M / 2 ^ 31 % 64 = c5 * 2 + t5 := by omega
  have f6 : M / 2 ^ 25 % 64 = c6 * 2 + t6 := by omega
  have f7 : M / 2 ^ 19 % 64 = c7 * 2 + t7 := by omega
  have f8 : M / 2 ^ 13 % 64 = c8 * 2 + t8 := by omega
  have f9 : M / 2 ^ 7 % 64 = c9 * 2 + t9 := by omega
  have f10 : M / 2 ^ 1 % 64 = c10 * 2 + t10 := by omega
  have el : M % 2 = l := by omega
  rw [unmixbit_eq M, e0, f1, f2, f3, f4, f5, f6, f7, f8, f9, f10, el]
  clear hM e0 f1 f2 f3 f4 f5 f6 f7 f8 f9 f10 el
  simp only [Prod.mk.injEq]
  constructor
  · omega
  · omega

set_option maxHeartbeats 1000000 in
/-- Round trip of the bit mixer: `unmixbit (mixbit p s) = (p, s)` for every
payload `p` and every 10-bit shard `s`. -/
theorem unmixbit_mixbit (p s : Nat) (hs : s < 2 ^ 10) :
    unmixbit (mixbit p s) = (p, s) := by
  rw [unmix_of_flat (mixbit p s) (p / 2 ^ 51)
    (p / 2 ^ 46 % 32) (p / 2 ^ 41 % 32) (p / 2 ^ 36 % 32) (p / 2 ^ 31 % 32)
    (p / 2 ^ 26 % 32) (p / 2 ^ 21 % 32) (p / 2 ^ 16 % 32) (p / 2 ^ 11 % 32)
    (p / 2 ^ 6 % 32) (p / 2 ^ 1 % 32) (p % 2)
    (s / 2 ^ 9 % 2) (s / 2 ^ 8 % 2) (s / 2 ^ 7 % 2) (s / 2 ^ 6 % 2) (s / 2 ^ 5 % 2)
    (s / 2 ^ 4 % 2) (s / 2 ^ 3 % 2) (s / 2 ^ 2 % 2) (s / 2 ^ 1 % 2) (s % 2)
    (by omega) (by omega) (by omega) (by omega) (by omega)
    (by omega) (by omega) (by omega) (by omega) (by omega)
    (by omega) (by omega) (by omega) (by omega) (by omega)
    (by omega) (by omega) (by omega) (by omega) (by omega)
    (by omega) (mixbit_eq p s)]
  simp only [Prod.mk.injEq]
  constructor
  · omega
  · omega

/-- Upper bound of the interleaved sum over its bounded parts. -/
theorem flat_lt (b0 c1 c2 c3 c4 c5 c6 c7 c8 c9 c10 l t1 t2 t3 t4 t5 t6 t7 t8 t9 t10 : Nat)
    (hb0 : b0 < 2 ^ 11)
    (hc1 : c1 < 32) (hc2 : c2 < 32) (hc3 : c3 < 32) (hc4 : c4 < 32) (hc5 : c5 < 32)
    (hc6 : c6 < 32) (hc7 : c7 < 32) (hc8 : c8 < 32) (hc9 : c9 < 32) (hc10 : c10 < 32)
    (hl : l < 2) (ht1 : t1 < 2) (ht2 : t2 < 2) (ht3 : t3 < 2) (ht4 : t4 < 2)
    (ht5 : t5 < 2) (ht6 : t6 < 2) (ht7 : t7 < 2) (ht8 : t8 < 2) (ht9 : t9 < 2)
    (ht10 : t10 < 2) :
    b0 * 2 ^ 61 + c1 * 2 ^ 56 + t1 * 2 ^ 55 +
      c2 * 2 ^ 50 + t2 * 2 ^ 49 + c3 * 2 ^ 44 + t3 * 2 ^ 43 +
      c4 * 2 ^ 38 + t4 * 2 ^ 37 + c5 * 2 ^ 32 + t5 * 2 ^ 31 +
      c6 * 2 ^ 26 + t6 * 2 ^ 25 + c7 * 2 ^ 20 + t7 * 2 ^ 19 +
      c8 * 2 ^ 14 + t8 * 2 ^ 13 + c9 * 2 ^ 8 + t9 * 2 ^ 7 +
      c10 * 2 ^ 2 + t10 * 2 + l < 2 ^ 72 := by
  omega

/-- Lower bound of the interleaved sum from its header part. -/
theorem flat_ge (b0 c1 c2 c3 c4 c5 c6 c7 c8 c9 c10 l t1 t2 t3 t4 t5 t6 t7 t8 t9 t10 : Nat)
    (hb0 : 2 ^ 10 <= b0) :
    2 ^ 71 <= b0 * 2 ^ 61 + c1 * 2 ^ 56 + t1 * 2 ^ 55 +
      c2 * 2 ^ 50 + t2 * 2 ^ 49 + c3 * 2 ^ 44 + t3 * 2 ^ 43 +
      c4 * 2 ^ 38 + t4 * 2 ^ 37 + c5 * 2 ^ 32 + t5 * 2 ^ 31 +
      c6 * 2 ^ 26 + t6 * 2 ^ 25 + c7 * 2 ^ 20 + t7 * 2 ^ 19 +
      c8 * 2 ^ 14 + t8 * 2 ^ 13 + c9 * 2 ^ 8 + t9 * 2 ^ 7 +
      c10 * 2 ^ 2 + t10 * 2 + l := by
  omega

/-- `mixbit` output is below 2^72 on in-range inputs. -/
theorem mixbit_lt (p s : Nat) (hp : p < 2 ^ 62) (hs : s < 2 ^ 10) :
    mixbit p s < 2 ^ 72 := by
  rw [mixbit_eq]
  exact flat_lt (p / 2 ^ 51)
    (p / 2 ^ 46 % 32) (p / 2 ^ 41 % 32) (p / 2 ^ 36 % 32) (p / 2 ^ 31 % 32)
    (p / 2 ^ 26 % 32) (p / 2 ^ 21 % 32) (p / 2 ^ 16 % 32) (p / 2 ^ 11 % 32)
    (p / 2 ^ 6 % 32) (p / 2 ^ 1 % 32) (p % 2)
    (s / 2 ^ 9 % 2) (s / 2 ^ 8 % 2) (s / 2 ^ 7 % 2) (s / 2 ^ 6 % 2) (s / 2 ^ 5 % 2)
    (s / 2 ^ 4 % 2) (s / 2 ^ 3 % 2) (s / 2 ^ 2 % 2) (s / 2 ^ 1 % 2) (s % 2)
    (by omega) (by omega) (by omega) (by omega) (by omega)
    (by omega) (by omega) (by omega) (by omega) (by omega)
    (by omega) (by omega) (by omega) (by omega) (by omega)
    (by omega) (by omega) (by omega) (by omega) (by omega)
    (by omega) (by omega)

/-- `mixbit` output has its top (72nd) bit set when the payload has its
marker (62nd) bit set. -/
theorem mixbit_ge (p s : Nat) (hp : 2 ^ 61 <= p) : 2 ^ 71 <= mixbit p s := by
  rw [mixbit_eq]
  exact flat_ge (p / 2 ^ 51)
    (p / 2 ^ 46 % 32) (p / 2 ^ 41 % 32) (p / 2 ^ 36 % 32) (p / 2 ^ 31 % 32)
    (p / 2 ^ 26 % 32) (p / 2 ^ 21 % 32) (p / 2 ^ 16 % 32) (p / 2 ^ 11 % 32)
    (p / 2 ^ 6 % 32) (p / 2 ^ 1 % 32) (p % 2)
    (s / 2 ^ 9 % 2) (s / 2 ^ 8 % 2) (s / 2 ^ 7 % 2) (s / 2 ^ 6 % 2) (s / 2 ^ 5 % 2)
    (s / 2 ^ 4 % 2) (s / 2 ^ 3 % 2) (s / 2 ^ 2 % 2) (s / 2 ^ 1 % 2) (s % 2)
    (by omega)

/-- C2: on every 62-bit payload with its top marker bit set and every shard
in [0,1023], `unmixbit` inverts `mixbit` exactly: no information is lost by
the interleaving. -/
theorem c2_mix_unmix_roundtrip (p s : Nat) (hp1 : 2 ^ 61 ≤ p) (hp2 : p < 2 ^ 62)
    (hs : s ≤ 1023) : unmixbit (mixbit p s) = (p, s) :=
  unmixbit_mixbit p s (by omega)

/-- Witness for C2 at a concrete payload and shard. -/
theorem c2_mix_unmix_roundtrip_witness :
    unmixbit (mixbit (2 ^ 61 + 12345678901234567) 517) =
      (2 ^ 61 + 12345678901234567, 517) :=
  c2_mix_unmix_roundtrip (2 ^ 61 + 12345678901234567) 517 (by norm_num)
    (by norm_num) (by norm_num)

theorem hexVal_hexChar_fin : ∀ d : Fin 16, hexVal (hexChar d.val) = some d.val := by decide

theorem b64Val_b64Char_fin : ∀ v : Fin 64, b64Val (b64Char v.val) = some v.val := by decide

theorem b64Char_ne_pad : ∀ v : Fin 64, ¬(b64Char v.val = '=') := by decide

theorem substRound_fin : ∀ v : Fin 64, substDec (substEnc (b64Char v.val)) = b64Char v.val := by
  decide

theorem substRound_pad : substDec (substEnc '=') = '=' := by decide

theorem toHexAux_zero : ∀ fuel, toHexAux fuel 0 = [] := by
  intro fuel
  cases fuel <;> simp [toHexAux]

theorem toHexAux_all_lt : ∀ fuel n d, d ∈ toHexAux fuel n → d < 16 := by
  intro fuel
  induction fuel with
  | zero => intro n d hd; simp [toHexAux] at hd
  | succ fuel ih =>
    intro n d hd
    by_cases h0 : n = 0
    · simp [toHexAux, h0] at hd
    · simp only [toHexAux, if_neg h0, List.mem_append, List.mem_singleton] at hd
      rcases hd with hd | hd
      · exact ih (n / 16) d hd
      · omega

theorem toHexAux_fold : ∀ fuel n, n ≤ fuel →
    (toHexAux fuel n).foldl (fun a d => 16 * a + d) 0 = n := by
  intro fuel
  induction fuel with
  | zero => intro n hn; simp [toHexAux]; omega
  | succ fuel ih =>
    intro n hn
    by_cases h0 : n = 0
    · simp [toHexAux, h0]
    · have hrec : n / 16 ≤ fuel := by omega
      simp only [toHexAux, if_neg h0, List.foldl_append, List.foldl_cons, List.foldl_nil]
      rw [ih (n / 16) hrec]
      omega

theorem toHexAux_len : ∀ fuel n k, n ≤ fuel → 16 ^ k ≤ n → n < 16 ^ (k + 1) →
    (toHexAux fuel n).length = k + 1 := by
  intro fuel
  induction fuel with
  | zero =>
    intro n k hn hk _
    have h1 : 1 ≤ 16 ^ k := Nat.one_le_pow k 16 (by norm_num)
    omega
  | succ fuel ih =>
    intro n k hn hk hk2
    have h1 : 1 ≤ 16 ^ k := Nat.one_le_pow k 16 (by norm_num)
    have h0 : ¬(n = 0) := by omega
    simp only [toHexAux, if_neg h0, List.length_append, List.length_singleton]
    cases k with
    | zero =>
      have : n / 16 = 0 := by
        simp only [pow_succ, pow_zero] at hk2
        omega
      rw [this, toHexAux_zero]
      rfl
    | succ k =>
      have e1 : (16 : Nat) ^ (k + 1) = 16 ^ k * 16 := by rw [pow_succ]
      have e2 : (16 : Nat) ^ (k + 2) = 16 ^ (k + 1) * 16 := by rw [pow_succ]
      have hrec : n / 16 ≤ fuel := by omega
      have hlow : 16 ^ k ≤ n / 16 := by omega
      have hhigh : n / 16 < 16 ^ (k + 1) := by omega
      rw [ih (n / 16) k hrec hlow hhigh]

theorem bytesFromHex_map_hexChar : ∀ ns : List Nat, (∀ d ∈ ns, d < 16) →
    bytesFromHex (ns.map hexChar) = pairUp ns
  | [], _ => rfl
  | [d], _ => rfl
  | d1 :: d2 :: rest, h => by
    have h1 := hexVal_hexChar_fin ⟨d1, h d1 (by simp)⟩
    have h2 := hexVal_hexChar_fin ⟨d2, h d2 (by simp)⟩
    simp only [List.map_cons, bytesFromHex, h1, h2, pairUp]
    rw [bytesFromHex_map_hexChar rest (fun d hd => h d (by simp [hd]))]

theorem pairUp_fold : ∀ ns : List Nat, ∀ a : Nat, ns.length % 2 = 0 →
    (pairUp ns).foldl (fun x y => 256 * x + y) a = ns.foldl (fun x d => 16 * x + d) a
  | [], _, _ => rfl
  | [d], _, h => by simp at h
  | d1 :: d2 :: rest, a, h => by
    simp only [pairUp, List.foldl_cons]
    have e : 256 * a + (16 * d1 + d2) = 16 * (16 * a + d1) + d2 := by ring
    rw [e]
    exact pairUp_fold rest _ (by simp at h; omega)

theorem pairUp_all_lt : ∀ ns : List Nat, (∀ d ∈ ns, d < 16) → ∀ y ∈ pairUp ns, y < 256
  | [], _, y, hy => by simp [pairUp] at hy
  | [d], _, y, hy => by simp [pairUp] at hy
  | d1 :: d2 :: rest, h, y, hy => by
    simp only [pairUp, List.mem_cons] at hy
    rcases hy with hy | hy
    · have := h d1 (by simp)
      have := h d2 (by simp)
      omega
    · exact pairUp_all_lt rest (fun d hd => h d (by simp [hd])) y hy

theorem pairUp_length : ∀ ns : List Nat, (pairUp ns).length = ns.length / 2
  | [] => rfl
  | [d] => by simp [pairUp]
  | d1 :: d2 :: rest => by
    simp only [pairUp, List.length_cons, pairUp_length rest]
    omega

theorem bytesToHex_fold : ∀ bs : List Nat, ∀ a : Nat, (∀ y ∈ bs, y < 256) →
    (bytesToHex bs).foldl (fun x c => 16 * x + (hexVal c).getD 0) a =
      bs.foldl (fun x y => 256 * x + y) a
  | [], _, _ => rfl
  | b :: rest, a, h => by
    have hb : b < 256 := h b (by simp)
    have h1 := hexVal_hexChar_fin ⟨b / 16, by omega⟩
    have h2 := hexVal_hexChar_fin ⟨b % 16, by omega⟩
    simp only [bytesToHex, List.foldl_cons, h1, h2, Option.getD_some]
    have e : 16 * (16 * a + b / 16) + b % 16 = 256 * a + b := by omega
    rw [e]
    exact bytesToHex_fold rest _ (fun y hy => h y (by simp [hy]))

theorem bytesToHex_eq_nil : ∀ bs : List Nat, bytesToHex bs = [] ↔ bs = [] := by
  intro bs
  cases bs <;> simp [bytesToHex]

theorem map_subst_encode : ∀ bs : List Nat, (∀ x ∈ bs, x < 256) →
    (b64Encode bs).map (fun c => substDec (substEnc c)) = b64Encode bs
  | [], _ => rfl
  | [a], h => by
    have ha : a < 256 := h a (by simp)
    have e1 := substRound_fin ⟨a / 4, by omega⟩
    have e2 := substRound_fin ⟨a % 4 * 16, by omega⟩
    simp only [b64Encode, List.map_cons, List.map_nil, e1, e2, substRound_pad]
  | [a, b], h => by
    have ha : a < 256 := h a (by simp)
    have hb : b < 256 := h b (by simp)
    have e1 := substRound_fin ⟨a / 4, by omega⟩
    have e2 := substRound_fin ⟨a % 4 * 16 + b / 16, by omega⟩
    have e3 := substRound_fin ⟨b % 16 * 4, by omega⟩
    simp only [b64Encode, List.map_cons, List.map_nil, e1, e2, e3, substRound_pad]
  | a :: b :: c :: rest, h => by
    have ha : a < 256 := h a (by simp)
    have hb : b < 256 := h b (by simp)
    have hc : c < 256 := h c (by simp)
    have e1 := substRound_fin ⟨a / 4, by omega⟩
    have e2 := substRound_fin ⟨a % 4 * 16 + b / 16, by omega⟩
    have e3 := substRound_fin ⟨b % 16 * 4 + c / 64, by omega⟩
    have e4 := substRound_fin ⟨c % 64, by omega⟩
    simp only [b64Encode, List.map_cons, e1, e2, e3, e4]
    rw [map_subst_encode rest (fun x hx => h x (by simp [hx]))]

theorem b64DecodeCore_cons (ch : Char) (rest : List Char) (acc nbits v : Nat)
    (hne : ¬(ch = '=')) (hv : b64Val ch = some v) :
    b64DecodeCore (ch :: rest) acc nbits =
      if nbits + 6 ≥ 8 then
        (acc * 64 + v) / 2 ^ (nbits + 6 - 8) ::
          b64DecodeCore rest ((acc * 64 + v) % 2 ^ (nbits + 6 - 8)) (nbits + 6 - 8)
      else b64DecodeCore rest (acc * 64 + v) (nbits + 6) := by
  simp only [b64DecodeCore, if_neg hne, hv]

theorem b64DecodeCore_pad (rest : List Char) (acc nbits : Nat) :
    b64DecodeCore ('=' :: rest) acc nbits = [] := by
  simp [b64DecodeCore]

theorem b64Val_b64Char (v : Nat) (hv : v < 64) : b64Val (b64Char v) = some v :=
  b64Val_b64Char_fin ⟨v, hv⟩

theorem b64Char_ne (v : Nat) (hv : v < 64) : ¬(b64Char v = '=') :=
  b64Char_ne_pad ⟨v, hv⟩

theorem decodeCore_group (a b c : Nat) (rest : List Char)
    (ha : a < 256) (hb : b < 256) (hc : c < 256) :
    b64DecodeCore (b64Char (a / 4) :: b64Char (a % 4 * 16 + b / 16) ::
      b64Char (b % 16 * 4 + c / 64) :: b64Char (c % 64) :: rest) 0 0 =
    a :: b :: c :: b64DecodeCore rest 0 0 := by
  rw [b64DecodeCore_cons _ _ _ _ (a / 4) (b64Char_ne _ (by omega))
    (b64Val_b64Char _ (by omega))]
  rw [if_neg (by norm_num)]
  norm_num
  rw [b64DecodeCore_cons _ _ _ _ (a % 4 * 16 + b / 16) (b64Char_ne _ (by omega))
    (b64Val_b64Char _ (by omega))]
  rw [if_pos (by norm_num)]
  norm_num
  rw [b64DecodeCore_cons _ _ _ _ (b % 16 * 4 + c / 64) (b64Char_ne _ (by omega))
    (b64Val_b64Char _ (by omega))]
  rw [if_pos (by norm_num)]
  norm_num
  rw [b64DecodeCore_cons _ _ _ _ (c % 64) (b64Char_ne _ (by omega))
    (b64Val_b64Char _ (by omega))]
  rw [if_pos (by norm_num)]
  norm_num
  refine ⟨by omega, by omega, by omega, ?_⟩
  rw [Nat.mod_one]

theorem decodeCore_one (a : Nat) (ha : a < 256) :
    b64DecodeCore [b64Char (a / 4), b64Char (a % 4 * 16), '=', '='] 0 0 = [a] := by
  rw [b64DecodeCore_cons _ _ _ _ (a / 4) (b64Char_ne _ (by omega))
    (b64Val_b64Char _ (by omega))]
  rw [if_neg (by norm_num)]
  norm_num
  rw [b64DecodeCore_cons _ _ _ _ (a % 4 * 16) (b64Char_ne _ (by omega))
    (b64Val_b64Char _ (by omega))]
  rw [if_pos (by norm_num)]
  norm_num [b64DecodeCore_pad]
  omega

theorem decodeCore_two (a b : Nat) (ha : a < 256) (hb : b < 256) :
    b64DecodeCore [b64Char (a / 4), b64Char (a % 4 * 16 + b / 16),
      b64Char (b % 16 * 4), '='] 0 0 = [a, b] := by
  rw [b64DecodeCore_cons _ _ _ _ (a / 4) (b64Char_ne _ (by omega))
    (b64Val_b64Char _ (by omega))]
  rw [if_neg (by norm_num)]
  norm_num
  rw [b64DecodeCore_cons _ _ _ _ (a % 4 * 16 + b / 16) (b64Char_ne _ (by omega))
    (b64Val_b64Char _ (by omega))]
  rw [if_pos (by norm_num)]
  norm_num
  rw [b64DecodeCore_cons _ _ _ _ (b % 16 * 4) (b64Char_ne _ (by omega))
    (b64Val_b64Char _ (by omega))]
  rw [if_pos (by norm_num)]
  norm_num [b64DecodeCore_pad]
  constructor
  · omega
  · omega

theorem b64_dec_enc : ∀ bs : List Nat, (∀ x ∈ bs, x < 256) →
    b64Decode (b64Encode bs) = bs
  | [], _ => rfl
  | [a], h => decodeCore_one a (h a (by simp))
  | [a, b], h => decodeCore_two a b (h a (by simp)) (h b (by simp))
  | a :: b :: c :: rest, h => by
    show b64DecodeCore (b64Encode (a :: b :: c :: rest)) 0 0 = _
    rw [show b64Encode (a :: b :: c :: rest) =
      b64Char (a / 4) :: b64Char (a % 4 * 16 + b / 16) ::
      b64Char (b % 16 * 4 + c / 64) :: b64Char (c % 64) :: b64Encode rest from rfl]
    rw [decodeCore_group a b c _ (h a (by simp)) (h b (by simp)) (h c (by simp))]
    rw [show b64DecodeCore (b64Encode rest) 0 0 = b64Decode (b64Encode rest) from rfl]
    rw [b64_dec_enc rest (fun x hx => h x (by simp [hx]))]

theorem toHexAux_len_ne_zero (x : Nat) (hx : 1 ≤ x) : (toHexAux x x).length ≠ 0 := by
  intro hc
  have hf := toHexAux_fold x x (le_refl x)
  rw [List.length_eq_zero] at hc
  rw [hc] at hf
  simp at hf
  omega

theorem encode_decode_eqlen (x : Nat) (hx : 1 ≤ x)
    (heven : (toHex x).length % 2 = 0) :
    decodeBase64UrlSafe (encodeBase64UrlSafe x) = some x := by
  have hx0 : ¬(x = 0) := by omega
  have htoHex : toHex x = (toHexAux x x).map hexChar := by simp [toHex, hx0]
  have hnu : ∀ d ∈ toHexAux x x, d < 16 := fun d hd => toHexAux_all_lt x x d hd
  have hB : bytesFromHex (toHex x) = pairUp (toHexAux x x) := by
    rw [htoHex]
    exact bytesFromHex_map_hexChar _ hnu
  have hBlt : ∀ y ∈ pairUp (toHexAux x x), y < 256 := pairUp_all_lt _ hnu
  have hlen : (toHexAux x x).length % 2 = 0 := by
    rw [htoHex] at heven
    simpa using heven
  have hne : ¬(pairUp (toHexAux x x) = []) := by
    have hl := pairUp_length (toHexAux x x)
    have hz := toHexAux_len_ne_zero x hx
    intro hc
    rw [hc] at hl
    simp at hl
    omega
  simp only [encodeBase64UrlSafe, decodeBase64UrlSafe, hB, List.map_map]
  have hmap : (b64Encode (pairUp (toHexAux x x))).map (substDec ∘ substEnc) =
      b64Encode (pairUp (toHexAux x x)) := by
    have h := map_subst_encode (pairUp (toHexAux x x)) hBlt
    simpa [Function.comp] using h
  rw [hmap, b64_dec_enc _ hBlt]
  have hem : (bytesToHex (pairUp (toHexAux x x))).isEmpty = false := by
    cases hcase : pairUp (toHexAux x x) with
    | nil => exact absurd hcase hne
    | cons y ys => simp [bytesToHex]
  rw [hem]
  simp only [Bool.false_eq_true, if_false]
  rw [bytesToHex_fold _ 0 hBlt, pairUp_fold _ 0 hlen, toHexAux_fold x x (le_refl x)]

/-- The token of an integer in [2^68, 2^72) renders as exactly 18 hex
digits. -/
theorem toHex_len_18 (m : Nat) (h1 : 2 ^ 68 ≤ m) (h2 : m < 2 ^ 72) :
    (toHex m).length = 18 := by
  have hm0 : ¬(m = 0) := by omega
  simp only [toHex, if_neg hm0, List.length_map]
  have e1 : (16 : Nat) ^ 17 = 2 ^ 68 := by norm_num
  have e2 : (16 : Nat) ^ 18 = 2 ^ 72 := by norm_num
  have h := toHexAux_len m m 17 (le_refl m) (by omega) (by omega)
  omega

/-- The codec round trip on every mixed identifier produced from in-range
fields. -/
theorem encode_decode_mixed (msec sec type seq shard : Nat)
    (hm : msec ≤ 1023) (hs : sec < 2 ^ 34) (ht : type ≤ 1023) (hq : seq ≤ 127)
    (hsh : shard ≤ 1023) :
    decodeBase64UrlSafe (encodeBase64UrlSafe (mixbit (pack msec sec type seq) shard)) =
      some (mixbit (pack msec sec type seq) shard) := by
  have hp := pack_range msec sec type seq (by omega) hs (by omega) (by omega)
  have hge := mixbit_ge (pack msec sec type seq) shard hp.1
  have hlt := mixbit_lt (pack msec sec type seq) shard hp.2 (by omega)
  have hlen := toHex_len_18 _ (by omega) hlt
  exact encode_decode_eqlen _ (by omega) (by rw [hlen])

/-- The sequence script issues only values in [0,127], whatever is
stored. -/
theorem seqScript_le (st : Option Nat) : seqScript st ≤ 127 := by
  cases st with
  | none => simp [seqScript]
  | some v =>
    simp only [seqScript, MAX_SEQ]
    split <;> omega

/-- C10: every payload built by `generate` has its marker (62nd) bit set, so
the mixed identifier is exactly 72 bits with its top bit set, its hex
rendering is 18 digits (a whole number of bytes), and the codec round trips
on it even without explicit leading-zero padding. -/
theorem c10_marker_and_fixed_width (msec sec type seq shard : Nat)
    (hm : msec ≤ 1023) (hs : sec ≤ 2 ^ 34 - 1) (ht : type ≤ 1023) (hq : seq ≤ 127)
    (hsh : shard ≤ 1023) :
    2 ^ 61 ≤ pack msec sec type seq ∧ pack msec sec type seq < 2 ^ 62 ∧
    2 ^ 71 ≤ mixbit (pack msec sec type seq) shard ∧
    mixbit (pack msec sec type seq) shard < 2 ^ 72 ∧
    (toHex (mixbit (pack msec sec type seq) shard)).length = 18 ∧
    decodeBase64UrlSafe (encodeBase64UrlSafe (mixbit (pack msec sec type seq) shard)) =
      some (mixbit (pack msec sec type seq) shard) := by
  have hp := pack_range msec sec type seq (by omega) (by omega) (by omega) (by omega)
  have hge := mixbit_ge (pack msec sec type seq) shard hp.1
  have hlt := mixbit_lt (pack msec sec type seq) shard hp.2 (by omega)
  have hlen := toHex_len_18 _ (by omega) hlt
  exact ⟨hp.1, hp.2, hge, hlt, hlen,
    encode_decode_mixed msec sec type seq shard hm (by omega) ht hq hsh⟩

/-- Witness for C10 at concrete in-range fields. -/
theorem c10_marker_and_fixed_width_witness :
    2 ^ 61 ≤ pack 999 1700000000 1 5 ∧ pack 999 1700000000 1 5 < 2 ^ 62 ∧
    2 ^ 71 ≤ mixbit (pack 999 1700000000 1 5) 517 ∧
    mixbit (pack 999 1700000000 1 5) 517 < 2 ^ 72 ∧
    (toHex (mixbit (pack 999 1700000000 1 5) 517)).length = 18 ∧
    decodeBase64UrlSafe (encodeBase64UrlSafe (mixbit (pack 999 1700000000 1 5) 517)) =
      some (mixbit (pack 999 1700000000 1 5) 517) :=
  c10_marker_and_fixed_width 999 1700000000 1 5 517 (by norm_num) (by norm_num)
    (by norm_num) (by norm_num) (by norm_num)

/-- C5 fails as stated: the codec performs no leading-zero padding, so an
integer whose hex rendering has odd length loses its trailing nibble pair;
at x = 2748 (hex abc, 12 bits) the round trip returns 171 (hex ab), not
2748. -/
theorem c5_counterexample :
    (2748 : Nat) < 2 ^ 72 ∧
    decodeBase64UrlSafe (encodeBase64UrlSafe 2748) = some 171 ∧
    ¬(decodeBase64UrlSafe (encodeBase64UrlSafe 2748) = some 2748) := by
  refine ⟨by norm_num, by decide, by decide⟩

/-- C5 amended: the codec round trips exactly on the integers whose hex
rendering has even length (a whole number of bytes); no explicit padding is
performed, and odd-hex-length integers (including 0) are corrupted. -/
theorem c5_codec_roundtrip (x : Nat) (_hw : x < 2 ^ 72)
    (heven : (toHex x).length % 2 = 0) :
    decodeBase64UrlSafe (encodeBase64UrlSafe x) = some x := by
  by_cases hx : x = 0
  · subst hx
    norm_num [toHex] at heven
  · exact encode_decode_eqlen x (by omega) heven

/-- Witness for C5 amended at x = 255 (hex ff). -/
theorem c5_codec_roundtrip_witness :
    (255 : Nat) < 2 ^ 72 ∧ (toHex 255).length % 2 = 0 ∧
    decodeBase64UrlSafe (encodeBase64UrlSafe 255) = some 255 :=
  ⟨by norm_num, by decide, c5_codec_roundtrip 255 (by norm_num) (by decide)⟩

/-- C7 fails as stated: the base64 decoding is lenient, so a token that is
not valid base64 can still decode to bytes, and `parse` then returns a
garbled record instead of raising; the 5-character token abcde is not valid
base64 yet parses successfully. -/
theorem c7_counterexample :
    specValidBase64 ['a', 'b', 'c', 'd', 'e'] = false ∧
    parse ['a', 'b', 'c', 'd', 'e'] =
      some { type := 107, shard := 12, sec := 3, msec := 0, seq := 79 } := by
  refine ⟨by decide, by decide⟩

/-- C7 amended: `parse` raises a decode failure exactly when the lenient
base64 decoding of the token yields no complete byte (the `BigInt` call then
sees an empty hex string); for any other malformed token the decoder
extracts the bytes it can and `parse` returns a value. -/
theorem c7_decode_failure_iff (s : List Char) :
    parse s = none ↔ b64Decode (s.map substDec) = [] := by
  simp only [parse, Option.map_eq_none']
  simp only [decodeBase64UrlSafe]
  cases hcase : b64Decode (s.map substDec) with
  | nil => simp [bytesToHex]
  | cons y ys => simp [bytesToHex]

/-- C1: `parse` applied to the uuid string returned by `generate` reproduces
the type, shard, sec, msec and seq that `generate` returned, for every type
and shard hint in [0,1023] and clock reading and stored sequence value
within their field ranges. -/
theorem c1_generate_parse_roundtrip (type hint sec msec : Nat) (store : Option Nat)
    (ht : type ≤ 1023) (hh : hint ≤ 1023) (hsec : sec ≤ 2 ^ 34 - 1) (hm : msec ≤ 1023)
    (hstore : ∀ v, store = some v → v ≤ 127) :
    ∀ g, (generate type hint sec msec store).1 = some g →
      parse g.uuid =
        some { type := type, shard := g.shard, sec := g.sec, msec := g.msec,
               seq := g.seq } := by
  intro g hg
  have hng : ¬(type > MAX_TYPE) := by
    simp only [MAX_TYPE]
    omega
  simp only [generate, SHARD_SLOT] at hg
  rw [if_neg hng] at hg
  simp only [Option.some.injEq] at hg
  subst hg
  dsimp only
  have hq : seqScript store ≤ 127 := seqScript_le store
  have hdec := encode_decode_mixed msec sec type (seqScript store) (hint % 1024)
    hm (by omega) ht hq (by omega)
  simp only [parse, hdec, Option.map_some']
  simp only [Option.some.injEq]
  have hunmix := unmixbit_mixbit (pack msec sec type (seqScript store)) (hint % 1024)
    (by omega)
  have hunpack := unpack_pack msec sec type (seqScript store) hm (by omega) ht hq
  simp only [parseBig, hunmix, hunpack]

/-- Witness for C1 at a concrete generate call. -/
theorem c1_generate_parse_roundtrip_witness :
    parse (encodeBase64UrlSafe (mixbit (pack 3 2 1 0) 0)) =
      some { type := 1, shard := 0, sec := 2, msec := 3, seq := 0 } := by
  have h := c1_generate_parse_roundtrip 1 0 2 3 none (by norm_num) (by norm_num)
    (by norm_num) (by norm_num) (fun v hv => Option.noConfusion hv)
    { uuid := encodeBase64UrlSafe (mixbit (pack 3 2 1 0) 0), shard := 0,
      sec := 2, msec := 3, seq := 0 } (by decide)
  exact h

/-- C9 on the code as written: `generate` awaits the sequence script, so a
rejected store promise becomes the result of `generate`; but `resetSeq`
calls `redis.del` without awaiting it, so its returned promise resolves
successfully even when the delete fails, and the store failure never
surfaces to the caller of `resetSeq`. -/
theorem c9_store_failure_propagation :
    (∀ (ε : Type) (e : ε) (type hint sec msec : Nat), type ≤ 1023 →
      generateAwait type hint sec msec (Except.error e) =
        Except.error (GenFailure.storeFailure e)) ∧
    (∀ (ε : Type) (e : ε), resetSeq (Except.error e) = Except.ok ()) := by
  constructor
  · intro ε e type hint sec msec ht
    simp only [generateAwait, MAX_TYPE]
    rw [if_neg (by omega)]
  · intro ε e
    rfl

/-- Witness for C9 at a concrete store failure. -/
theorem c9_store_failure_propagation_witness :
    generateAwait 1 0 0 0 (Except.error 42) =
      Except.error (GenFailure.storeFailure 42) ∧
    resetSeq (Except.error 42) = Except.ok () :=
  ⟨c9_store_failure_propagation.1 Nat 42 1 0 0 0 (by norm_num),
   c9_store_failure_propagation.2 Nat 42⟩
